import Mathlib

/-!
Verification of the teleinfo frame/field parser.

The Rust source (src/lib.rs, src/parser/mod.rs, src/parser/tags.rs) is
shallowly embedded here.  Byte strings are modelled as `List Char`; the
nom parser combinators used by the source are modelled as functions
`List Char → PResult α` where `PResult` distinguishes the four observable
outcomes of a nom parser invocation in this code base: success,
recoverable error (`nom::Err::Error`), `nom::Err::Incomplete`, and a Rust
panic (an `unwrap` of a failed sub-parse inside a closure).
-/

/-- Embedding of `enum TeleinfoMode` from src/lib.rs. -/
inductive TeleinfoMode where
  | Standard
  | Legacy
deriving DecidableEq

/-- Calendar date-time produced by chrono's `datetime_from_str` with format
`%y%m%d%H%M%S`; only the six components are modelled. -/
structure DateTime6 where
  year : Nat
  month : Nat
  day : Nat
  hour : Nat
  minute : Nat
  second : Nat
deriving DecidableEq

/-- Embedding of `struct TeleinfoDate` from src/lib.rs. -/
structure TeleinfoDate where
  season : Char
  date : DateTime6
  raw_value : List Char
deriving DecidableEq

/-- Embedding of `type TeleinfoTuple<'a> = (&'a str, &'a str, char, Option<TeleinfoDate>)`. -/
abbrev TeleinfoTuple := List Char × List Char × Char × Option TeleinfoDate

instance : DecidableEq (List TeleinfoTuple × TeleinfoMode) :=
  fun a b => instDecidableEqProd a b

/-- Embedding of `struct TeleinfoValue` from src/lib.rs. -/
structure TeleinfoValue where
  value : List Char
  horodate : Option TeleinfoDate
deriving DecidableEq

/-- Embedding of `struct TeleinfoMessage` from src/lib.rs.  The Rust
`HashMap<String, TeleinfoValue>` is modelled as an association list with
overwrite-on-insert semantics (see `hashmap_insert`). -/
structure TeleinfoMessage where
  values : List (List Char × TeleinfoValue)
  mode : TeleinfoMode
  valid : Bool
deriving DecidableEq

/-- Outcome of running a nom parser, as observable in this code base. -/
inductive PResult (α : Type) where
  | ok (rest : List Char) (val : α)
  | err
  | incomplete
  | panicked
deriving DecidableEq

/-- Shallow embedding of a nom parser over string input. -/
abbrev P (α : Type) := List Char → PResult α

/-- Parser returning a value without consuming input. -/
def ppure {α : Type} (a : α) : P α := fun input => .ok input a

/-- Sequencing of parsers, as done by nom's `tuple`. -/
def pbind {α β : Type} (p : P α) (f : α → P β) : P β := fun input =>
  match p input with
  | .ok rest a => f a rest
  | .err => .err
  | .incomplete => .incomplete
  | .panicked => .panicked

/-- nom's `alt` over two parsers: the second alternative is tried only on
a recoverable error of the first. -/
def alt2 {α : Type} (p q : P α) : P α := fun input =>
  match p input with
  | .err => q input
  | r => r

/-- nom's `bytes::complete::tag`. -/
def ptag (t : List Char) : P (List Char) := fun input =>
  if t.isPrefixOf input then .ok (input.drop t.length) t else .err

/-- nom's `bytes::complete::tag_no_case` (ASCII-insensitive, as used on
the one-character patterns of this code base). -/
def ptagNoCase (t : List Char) : P (List Char) := fun input =>
  if t.length ≤ input.length ∧
      (input.take t.length).map Char.toLower = t.map Char.toLower then
    .ok (input.drop t.length) (input.take t.length)
  else .err

/-- Split the input at the first occurrence of the character `c`:
returns the part strictly before `c` and the part starting at `c`. -/
def takeUntilChar (c : Char) : List Char → Option (List Char × List Char)
  | [] => none
  | x :: xs =>
    if x = c then some ([], x :: xs)
    else match takeUntilChar c xs with
      | none => none
      | some (a, b) => some (x :: a, b)

/-- nom's `bytes::streaming::take_until`, for the one-character patterns
used by the source: `Incomplete` when the pattern is absent. -/
def streamTakeUntilChar (c : Char) : P (List Char) := fun input =>
  match takeUntilChar c input with
  | none => .incomplete
  | some (a, b) => .ok b a

/-- nom's `bytes::complete::take_until`, for one-character patterns:
a recoverable error when the pattern is absent. -/
def completeTakeUntilChar (c : Char) : P (List Char) := fun input =>
  match takeUntilChar c input with
  | none => .err
  | some (a, b) => .ok b a

/-- nom's `character::complete::char`. -/
def pchar (c : Char) : P Char := fun input =>
  match input with
  | [] => .err
  | x :: xs => if x = c then .ok xs c else .err

/-- nom's `character::complete::anychar`. -/
def panychar : P Char := fun input =>
  match input with
  | [] => .err
  | x :: xs => .ok xs x

/-- nom's `character::complete::digit1`: a maximal non-empty run of ASCII
digits. -/
def pdigit1 : P (List Char) := fun input =>
  let ds := input.takeWhile Char.isDigit
  if ds.isEmpty then .err else .ok (input.drop ds.length) ds

/-- nom's `bytes::complete::take` with a fixed count. -/
def ptake (n : Nat) : P (List Char) := fun input =>
  if n ≤ input.length then .ok (input.drop n) (input.take n) else .err

/-- nom's `combinator::recognize`: returns the consumed slice of input. -/
def precognize {α : Type} (p : P α) : P (List Char) := fun input =>
  match p input with
  | .ok rest _ => .ok rest (input.take (input.length - rest.length))
  | .err => .err
  | .incomplete => .incomplete
  | .panicked => .panicked

/-- Iteration step of nom's `many1`: keep applying `p`, stopping with
success on a recoverable error, erroring on an iteration that consumes
nothing (nom's infinite-loop guard).  `fuel` bounds the recursion; every
parser iterated by the source consumes at least one character, so the
fuel supplied by `pmany1` is never exhausted on reachable inputs. -/
def pmany1Loop {α : Type} (p : P α) : Nat → List Char → List α → PResult (List α)
  | 0, input, acc => .ok input acc.reverse
  | fuel + 1, input, acc =>
    match p input with
    | .err => .ok input acc.reverse
    | .incomplete => .incomplete
    | .panicked => .panicked
    | .ok rest a =>
      if rest.length = input.length then .err
      else pmany1Loop p fuel rest (a :: acc)

/-- nom's `multi::many1`. -/
def pmany1 {α : Type} (p : P α) : P (List α) := fun input =>
  match p input with
  | .err => .err
  | .incomplete => .incomplete
  | .panicked => .panicked
  | .ok rest a =>
    if rest.length = input.length then .err
    else pmany1Loop p (rest.length + 1) rest [a]

/-- Start-of-text frame delimiter, `\u{02}`. -/
def STX : Char := Char.ofNat 2

/-- End-of-text frame delimiter, `\u{03}`. -/
def ETX : Char := Char.ofNat 3

/-- Line-start control character, `\u{0a}`. -/
def LF : Char := Char.ofNat 10

/-- Line terminator, `\u{0d}`. -/
def CR : Char := Char.ofNat 13

namespace parser

/-- Embedding of `fn get_beginning` from src/parser/mod.rs. -/
def get_beginning : P (List Char) :=
  precognize (pbind (streamTakeUntilChar STX) fun _ => ptag [STX])

/-- Embedding of `pub fn get_message` from src/parser/mod.rs
(`delimited(get_beginning, stream_take_until("\u{03}"), tag("\u{03}"))`). -/
def get_message : P (List Char) :=
  pbind get_beginning fun _ =>
  pbind (streamTakeUntilChar ETX) fun body =>
  pbind (ptag [ETX]) fun _ =>
  ppure body

/-- Embedding of `fn separator` from src/parser/mod.rs. -/
def separator (mode : TeleinfoMode) : Char :=
  match mode with
  | .Standard => Char.ofNat 9
  | .Legacy => ' '

/-- Embedding of `fn parser_value_helper` from src/parser/mod.rs. -/
def parser_value_helper (mode : TeleinfoMode) : P (List Char) :=
  completeTakeUntilChar (separator mode)

/-- Embedding of `fn parser_value_legacy`. -/
def parser_value_legacy : P (List Char) := parser_value_helper .Legacy

/-- Embedding of `fn parser_value_standard`. -/
def parser_value_standard : P (List Char) := parser_value_helper .Standard

/-- Ordered alternation of literal tags, as produced by the nested `alt`
calls of src/parser/tags.rs. -/
def altTags : List (List Char) → P (List Char)
  | [] => fun _ => .err
  | t :: ts => alt2 (ptag t) (altTags ts)

/-- Embedding of `fn parser_tag_legacy_1` from src/parser/tags.rs. -/
def parser_tag_legacy_1 : P (List Char) :=
  altTags (List.map String.toList
    ["ADCO", "OPTARIF", "ISOUSC", "PEJP", "PTEC", "DEMAIN", "IINST",
     "IINST1", "IINST2", "IINST3", "ADPS", "IMAX", "IMAX1", "IMAX2",
     "IMAX3", "PAPP", "PMAX", "HHPHC", "MOTDETAT", "PPOT"])

/-- Embedding of `fn parser_tag_legacy_2` from src/parser/tags.rs. -/
def parser_tag_legacy_2 : P (List Char) :=
  altTags (List.map String.toList
    ["BASE", "HCHC", "HCHP", "EJPHN", "EJPHPM", "BBRHCJB", "BBRHPJB",
     "BBRHCJW", "BBRHPJW", "BBRHCJR", "BBRHPJR"])

/-- Embedding of `fn parser_tag_legacy_3` from src/parser/tags.rs. -/
def parser_tag_legacy_3 : P (List Char) :=
  altTags (List.map String.toList ["ADIR1", "ADIR2", "ADIR3"])

/-- Embedding of `pub fn parser_tag_legacy` from src/parser/tags.rs. -/
def parser_tag_legacy : P (List Char) :=
  alt2 parser_tag_legacy_1 (alt2 parser_tag_legacy_2 parser_tag_legacy_3)

/-- Embedding of `fn parser_tag_standard_1` from src/parser/tags.rs. -/
def parser_tag_standard_1 : P (List Char) :=
  altTags (List.map String.toList
    ["ADSC", "VTIC", "NGTF", "LTARF", "EAST", "EASF01", "EASF02",
     "EASF03", "EASF04", "EASF05", "EASF06", "EASF07", "EASF08",
     "EASF09", "EASF10", "EASD01", "EASD02", "EASD03", "EASD04", "EAIT"])

/-- Embedding of `fn parser_tag_standard_2` from src/parser/tags.rs. -/
def parser_tag_standard_2 : P (List Char) :=
  altTags (List.map String.toList
    ["ADSC", "ERQ1", "ERQ2", "ERQ3", "ERQ4", "IRMS1", "IRMS2", "IRMS3",
     "URMS1", "URMS2", "URMS3", "PREF", "PCOUP", "SINSTS1", "SINSTS2",
     "SINSTS3", "SINSTS", "SINSTI", "STGE", "MSG1", "MSG2"])

/-- Embedding of `fn parser_tag_standard_3` from src/parser/tags.rs. -/
def parser_tag_standard_3 : P (List Char) :=
  altTags (List.map String.toList
    ["ADSC", "PRM", "RELAIS", "NTARF", "NJOURF+1", "NJOURF", "PJOURF+1",
     "PPOINTE"])

/-- Embedding of `pub fn parser_tag_standard` from src/parser/tags.rs. -/
def parser_tag_standard : P (List Char) :=
  alt2 parser_tag_standard_1 (alt2 parser_tag_standard_2 parser_tag_standard_3)

/-- Embedding of `fn parser_tag_standard_horodate_1` from src/parser/tags.rs. -/
def parser_tag_standard_horodate_1 : P (List Char) :=
  altTags (List.map String.toList
    ["DATE", "SMAXSN1-1", "SMAXSN2-1", "SMAXSN3-1", "SMAXSN-1",
     "SMAXSN1", "SMAXSN2", "SMAXSN3", "SMAXSN", "SMAXIN-1", "SMAXIN",
     "CCASN-1", "CCASN", "CCAIN-1", "CCAIN", "UMOY1", "UMOY2", "UMOY3",
     "DPM1", "FPM1", "DPM2"])

/-- Embedding of `fn parser_tag_standard_horodate_2` from src/parser/tags.rs. -/
def parser_tag_standard_horodate_2 : P (List Char) :=
  altTags (List.map String.toList ["FPM2", "DPM3", "FPM3"])

/-- Embedding of `pub fn parser_tag_standard_horodate` from src/parser/tags.rs. -/
def parser_tag_standard_horodate : P (List Char) :=
  alt2 parser_tag_standard_horodate_1 parser_tag_standard_horodate_2

/-- Embedding of `fn parser_dataset_legacy` from src/parser/mod.rs. -/
def parser_dataset_legacy : P TeleinfoTuple :=
  pbind (pchar LF) fun _ =>
  pbind parser_tag_legacy fun tg =>
  pbind (pchar (separator .Legacy)) fun _ =>
  pbind parser_value_legacy fun data =>
  pbind (pchar (separator .Legacy)) fun _ =>
  pbind panychar fun checksum =>
  pbind (pchar CR) fun _ =>
  ppure (tg, data, checksum, none)

/-- Embedding of `fn parser_horodate_season` from src/parser/mod.rs. -/
def parser_horodate_season : P (List Char) :=
  alt2 (ptagNoCase ['h']) (alt2 (ptagNoCase ['e']) (ptag [' ']))

/-- Embedding of `fn parser_date_verifier` from src/parser/mod.rs. -/
def parser_date_verifier : P (List Char) := pdigit1

/-- Embedding of `fn parser_horodate_date` from src/parser/mod.rs:
`verify(take(12), |s| parser_date_verifier(s).unwrap() == ("", s))`.
The `unwrap` panics when `digit1` fails on the 12-character slice. -/
def parser_horodate_date : P (List Char) := fun input =>
  match ptake 12 input with
  | .ok rest s =>
    match parser_date_verifier s with
    | .ok r ds => if r = [] ∧ ds = s then .ok rest s else .err
    | _ => .panicked
  | .err => .err
  | .incomplete => .incomplete
  | .panicked => .panicked

/-- Two-digit decimal value of a pair of digit characters. -/
def twoDigits (a b : Char) : Nat := 10 * (a.toNat - 48) + (b.toNat - 48)

/-- Leap-year rule of the proleptic Gregorian calendar. -/
def isLeap (y : Nat) : Bool := y % 4 = 0 && (y % 100 ≠ 0 || y % 400 = 0)

/-- Number of days of month `m` of year `y`. -/
def daysInMonth (y m : Nat) : Nat :=
  if m = 2 then (if isLeap y then 29 else 28)
  else if m = 4 ∨ m = 6 ∨ m = 9 ∨ m = 11 then 30
  else 31

/-- Embedding of chrono's `Local.datetime_from_str(s, "%y%m%d%H%M%S")`:
twelve digit characters interpreted as YYMMDDHHMMSS, with chrono's
two-digit-year pivot (69–99 ↦ 1969–1999, 00–68 ↦ 2000–2068); `none` when
the components do not form a valid calendar date-time (time-zone
transitions are not modelled). -/
def datetime_from_str (s : List Char) : Option DateTime6 :=
  match s with
  | [y1, y2, mo1, mo2, d1, d2, h1, h2, mi1, mi2, s1, s2] =>
    if (s.all Char.isDigit) then
      let yy := twoDigits y1 y2
      let year := if 69 ≤ yy then 1900 + yy else 2000 + yy
      let month := twoDigits mo1 mo2
      let day := twoDigits d1 d2
      let hour := twoDigits h1 h2
      let minute := twoDigits mi1 mi2
      let second := twoDigits s1 s2
      if 1 ≤ month ∧ month ≤ 12 ∧ 1 ≤ day ∧ day ≤ daysInMonth year month ∧
          hour ≤ 23 ∧ minute ≤ 59 ∧ second ≤ 59 then
        some ⟨year, month, day, hour, minute, second⟩
      else none
    else none
  | _ => none

/-- Embedding of `fn parser_horodate` from src/parser/mod.rs.  The two
`unwrap` calls of the source are modelled: `season.chars().next().unwrap()`
(never fails: the season sub-parser yields one character) and
`Local.datetime_from_str(date, "%y%m%d%H%M%S").unwrap()`, which panics
when the twelve digits are not a valid calendar date-time. -/
def parser_horodate : P TeleinfoDate := fun input =>
  match (pbind parser_horodate_season fun s =>
         pbind parser_horodate_date fun d => ppure (s, d)) input with
  | .ok r (season, date) =>
    match season with
    | [] => .panicked
    | c :: _ =>
      match datetime_from_str date with
      | none => .panicked
      | some dt => .ok r ⟨c, dt, season ++ date⟩
  | .err => .err
  | .incomplete => .incomplete
  | .panicked => .panicked

/-- Embedding of `fn parser_dataset_standard_nohd` from src/parser/mod.rs. -/
def parser_dataset_standard_nohd : P TeleinfoTuple :=
  pbind (pchar LF) fun _ =>
  pbind parser_tag_standard fun tg =>
  pbind (pchar (separator .Standard)) fun _ =>
  pbind parser_value_standard fun data =>
  pbind (pchar (separator .Standard)) fun _ =>
  pbind panychar fun checksum =>
  pbind (pchar CR) fun _ =>
  ppure (tg, data, checksum, none)

/-- Embedding of `fn parser_dataset_standard_horodate` from src/parser/mod.rs. -/
def parser_dataset_standard_horodate : P TeleinfoTuple :=
  pbind (pchar LF) fun _ =>
  pbind parser_tag_standard_horodate fun tg =>
  pbind (pchar (separator .Standard)) fun _ =>
  pbind parser_horodate fun date =>
  pbind (pchar (separator .Standard)) fun _ =>
  pbind parser_value_standard fun data =>
  pbind (pchar (separator .Standard)) fun _ =>
  pbind panychar fun checksum =>
  pbind (pchar CR) fun _ =>
  ppure (tg, data, checksum, some date)

/-- Embedding of `fn parser_dataset_standard` from src/parser/mod.rs. -/
def parser_dataset_standard : P TeleinfoTuple :=
  alt2 parser_dataset_standard_nohd parser_dataset_standard_horodate

/-- Embedding of `pub fn parser_message_legacy` from src/parser/mod.rs. -/
def parser_message_legacy : P (List TeleinfoTuple × TeleinfoMode) := fun input =>
  match pmany1 parser_dataset_legacy input with
  | .ok r v => .ok r (v, .Legacy)
  | .err => .err
  | .incomplete => .incomplete
  | .panicked => .panicked

/-- Embedding of `pub fn parser_message_standard` from src/parser/mod.rs. -/
def parser_message_standard : P (List TeleinfoTuple × TeleinfoMode) := fun input =>
  match pmany1 parser_dataset_standard input with
  | .ok r v => .ok r (v, .Standard)
  | .err => .err
  | .incomplete => .incomplete
  | .panicked => .panicked

/-- Embedding of `pub fn parser_message` from src/parser/mod.rs. -/
def parser_message : P (List TeleinfoTuple × TeleinfoMode) :=
  alt2 parser_message_legacy parser_message_standard

/-- Embedding of `fn calculate_checksum` from src/parser/mod.rs: sum of
the code points, masked with `0x3F`, plus `0x20`.  The Rust sum is a
`u32`; reducing the natural-number sum modulo `2^32` does not change the
low six bits, so the plain sum is used. -/
def calculate_checksum (input : List Char) : Char :=
  Char.ofNat (((input.foldl (fun acc c => acc + c.toNat) 0) &&& 63) + 32)

/-- Embedding of `fn validate` from src/parser/mod.rs. -/
def validate (mode : TeleinfoMode) (values : TeleinfoTuple) : Bool :=
  let (tg, value, cs, hd) := values
  let include_sep : List Char :=
    match mode with
    | .Legacy => []
    | .Standard => [separator mode]
  match hd with
  | none =>
    calculate_checksum (tg ++ [separator mode] ++ value ++ include_sep) = cs
  | some date =>
    calculate_checksum (tg ++ [separator mode] ++ date.raw_value ++
      [separator mode] ++ value ++ [separator mode]) = cs

/-- Embedding of `pub fn validate_message` from src/parser/mod.rs. -/
def validate_message (mode : TeleinfoMode) (message : List TeleinfoTuple) : Bool :=
  (message.map fun m => validate mode m).all fun x => x

end parser

/-- Overwrite-on-insert of `HashMap::insert`, on the association-list
model of the map. -/
def hashmap_insert (k : List Char) (v : TeleinfoValue) :
    List (List Char × TeleinfoValue) → List (List Char × TeleinfoValue)
  | [] => [(k, v)]
  | (k2, v2) :: rest =>
    if k2 = k then (k, v) :: rest else (k2, v2) :: hashmap_insert k v rest

/-- Lookup of `HashMap::get`, on the association-list model of the map. -/
def hashmap_get (m : List (List Char × TeleinfoValue)) (k : List Char) :
    Option TeleinfoValue :=
  match m with
  | [] => none
  | (k2, v2) :: rest => if k2 = k then some v2 else hashmap_get rest k

/-- Embedding of `fn parsed_vector_to_values` from src/lib.rs. -/
def parsed_vector_to_values (lines : List TeleinfoTuple) :
    List (List Char × TeleinfoValue) :=
  lines.foldl (fun values line => hashmap_insert line.1 ⟨line.2.1, line.2.2.2⟩ values) []

/-- Embedding of `fn build_message` from src/lib.rs.  The source unwraps
the parse result: a failed `parser_message` is a panic, modelled as
`none`. -/
def build_message (raw_message : List Char) : Option TeleinfoMessage :=
  match parser.parser_message raw_message with
  | .ok r (lines, mode) =>
    some { values := parsed_vector_to_values lines
           mode := mode
           valid := r.isEmpty && parser.validate_message mode lines }
  | _ => none

/-- One read event delivered by the `Read` transport of `get_message`
in src/lib.rs: a successful chunk, a timeout-class error, or another
I/O error (its kind abstracted as a number). -/
inductive ReadEv where
  | chunk (data : List Char)
  | timeout
  | fatal (e : Nat)
deriving DecidableEq

/-- Observable outcome of one call of `get_message` from src/lib.rs.
`starved` records that the supplied read events were exhausted while the
frame was still incomplete (the real loop would keep reading). -/
inductive DecodeOutcome where
  | ok (leftover : List Char) (msg : TeleinfoMessage)
  | ioError (e : Nat)
  | parseError
  | panicked
  | starved (acc : List Char)
deriving DecidableEq

/-- Embedding of `fn handle_nom_error` from src/lib.rs. -/
def handle_nom_error : DecodeOutcome := .parseError

/-- Body of one loop iteration of `get_message` in src/lib.rs after the
read: attempt frame extraction on the accumulator, and on success build
the message (`build_message(message).unwrap()`, whose failure is a
panic).  `none` means `Incomplete`: keep looping. -/
def decode_step (acc : List Char) : Option DecodeOutcome :=
  match parser.get_message acc with
  | .ok r body =>
    some (match build_message body with
      | some msg => .ok r msg
      | none => .panicked)
  | .incomplete => none
  | .err => some handle_nom_error
  | .panicked => some .panicked

/-- The read loop of `get_message` from src/lib.rs, driven by the finite
list of read events: a fatal read error returns immediately; a timeout is
a zero-byte read; otherwise the chunk is appended and the accumulator is
parsed. -/
def get_message_loop : List Char → List ReadEv → DecodeOutcome
  | acc, [] => .starved acc
  | acc, ev :: rest =>
    match ev with
    | .fatal e => .ioError e
    | .timeout =>
      (match decode_step acc with
       | some out => out
       | none => get_message_loop acc rest)
    | .chunk d =>
      (match decode_step (acc ++ d) with
       | some out => out
       | none => get_message_loop (acc ++ d) rest)

/-- Embedding of `pub fn get_message` from src/lib.rs: the accumulator is
seeded with the leftover of the previous call and the loop is driven by
the transport's read events. -/
def get_message (source : List ReadEv) (leftover : List Char) : DecodeOutcome :=
  get_message_loop leftover source

/-! Helper lemmas about the combinator embedding. -/

/-- Boolean success test on a parser outcome. -/
def isOkP {α : Type} : PResult α → Bool
  | .ok _ _ => true
  | _ => false

lemma takeUntilChar_eq_none {c : Char} {l : List Char} (h : c ∉ l) :
    takeUntilChar c l = none := by
  induction l with
  | nil => rfl
  | cons x xs ih =>
    rw [List.mem_cons, not_or] at h
    simp only [takeUntilChar]
    rw [if_neg (fun hx => h.1 hx.symm), ih h.2]

lemma takeUntilChar_append {c : Char} {a : List Char} (b : List Char) (h : c ∉ a) :
    takeUntilChar c (a ++ c :: b) = some (a, c :: b) := by
  induction a with
  | nil => simp [takeUntilChar]
  | cons x xs ih =>
    rw [List.mem_cons, not_or] at h
    simp only [List.cons_append, takeUntilChar]
    rw [if_neg (fun hx => h.1 hx.symm)]
    simp only [List.append_eq]
    rw [ih h.2]

lemma takeUntilChar_eq_append {c : Char} : ∀ (l a b : List Char),
    takeUntilChar c l = some (a, b) → l = a ++ b := by
  intro l
  induction l with
  | nil => intro a b h; simp [takeUntilChar] at h
  | cons x xs ih =>
    intro a b h
    simp only [takeUntilChar] at h
    by_cases hx : x = c
    · rw [if_pos hx] at h
      simp only [Option.some.injEq, Prod.mk.injEq] at h
      obtain ⟨rfl, rfl⟩ := h
      simp
    · rw [if_neg hx] at h
      cases htu : takeUntilChar c xs with
      | none => rw [htu] at h; simp at h
      | some p =>
        obtain ⟨a2, b2⟩ := p
        rw [htu] at h
        simp only [Option.some.injEq, Prod.mk.injEq] at h
        obtain ⟨rfl, rfl⟩ := h
        simp [ih a2 b2 htu]

/-- A parser whose leftover is always a suffix of its input. -/
def IsSuff {α : Type} (p : P α) : Prop :=
  ∀ input rest v, p input = .ok rest v → List.IsSuffix rest input

lemma isSuff_ppure {α : Type} (a : α) : IsSuff (ppure a) := by
  intro input rest v h
  simp only [ppure, PResult.ok.injEq] at h
  exact h.1 ▸ List.suffix_refl input

lemma isSuff_pbind {α β : Type} {p : P α} {f : α → P β}
    (hp : IsSuff p) (hf : ∀ a, IsSuff (f a)) : IsSuff (pbind p f) := by
  intro input rest v h
  unfold pbind at h
  cases hpi : p input with
  | ok r1 a =>
    rw [hpi] at h
    exact (hf a r1 rest v h).trans (hp input r1 a hpi)
  | err => rw [hpi] at h; cases h
  | incomplete => rw [hpi] at h; cases h
  | panicked => rw [hpi] at h; cases h

lemma isSuff_alt2 {α : Type} {p q : P α} (hp : IsSuff p) (hq : IsSuff q) :
    IsSuff (alt2 p q) := by
  intro input rest v h
  unfold alt2 at h
  cases hpi : p input with
  | ok r1 a => rw [hpi] at h; exact hp input rest v (hpi.trans h)
  | err => rw [hpi] at h; exact hq input rest v h
  | incomplete => rw [hpi] at h; simp at h
  | panicked => rw [hpi] at h; simp at h

lemma isSuff_ptag (t : List Char) : IsSuff (ptag t) := by
  intro input rest v h
  unfold ptag at h
  split at h
  · injection h with h1 h2
    exact h1 ▸ List.drop_suffix _ _
  · simp at h

lemma isSuff_ptagNoCase (t : List Char) : IsSuff (ptagNoCase t) := by
  intro input rest v h
  unfold ptagNoCase at h
  split at h
  · injection h with h1 h2
    exact h1 ▸ List.drop_suffix _ _
  · simp at h

lemma isSuff_pchar (c : Char) : IsSuff (pchar c) := by
  intro input rest v h
  cases input with
  | nil => simp [pchar] at h
  | cons x xs =>
    simp only [pchar] at h
    split at h
    · injection h with h1 h2
      exact h1 ▸ ⟨[x], rfl⟩
    · simp at h

lemma isSuff_panychar : IsSuff panychar := by
  intro input rest v h
  cases input with
  | nil => simp [panychar] at h
  | cons x xs =>
    simp only [panychar] at h
    injection h with h1 h2
    exact h1 ▸ ⟨[x], rfl⟩

lemma isSuff_pdigit1 : IsSuff pdigit1 := by
  intro input rest v h
  simp only [pdigit1] at h
  split at h
  · simp at h
  · injection h with h1 h2
    exact h1 ▸ List.drop_suffix _ _

lemma isSuff_ptake (n : Nat) : IsSuff (ptake n) := by
  intro input rest v h
  unfold ptake at h
  split at h
  · injection h with h1 h2
    exact h1 ▸ List.drop_suffix _ _
  · simp at h

lemma isSuff_streamTakeUntilChar (c : Char) : IsSuff (streamTakeUntilChar c) := by
  intro input rest v h
  unfold streamTakeUntilChar at h
  cases htu : takeUntilChar c input with
  | none => rw [htu] at h; simp at h
  | some pr =>
    obtain ⟨a, b⟩ := pr
    rw [htu] at h
    injection h with h1 h2
    exact h1 ▸ ⟨a, (takeUntilChar_eq_append input a b htu).symm⟩

lemma isSuff_completeTakeUntilChar (c : Char) : IsSuff (completeTakeUntilChar c) := by
  intro input rest v h
  unfold completeTakeUntilChar at h
  cases htu : takeUntilChar c input with
  | none => rw [htu] at h; simp at h
  | some pr =>
    obtain ⟨a, b⟩ := pr
    rw [htu] at h
    injection h with h1 h2
    exact h1 ▸ ⟨a, (takeUntilChar_eq_append input a b htu).symm⟩

lemma isSuff_precognize {α : Type} {p : P α} (hp : IsSuff p) : IsSuff (precognize p) := by
  intro input rest v h
  unfold precognize at h
  cases hpi : p input with
  | ok r1 a =>
    rw [hpi] at h
    injection h with h1 h2
    exact h1 ▸ hp input r1 a hpi
  | err => rw [hpi] at h; simp at h
  | incomplete => rw [hpi] at h; simp at h
  | panicked => rw [hpi] at h; simp at h

lemma isSuff_altTags : ∀ ts : List (List Char), IsSuff (parser.altTags ts) := by
  intro ts
  induction ts with
  | nil => intro input rest v h; simp [parser.altTags] at h
  | cons t ts ih => exact isSuff_alt2 (isSuff_ptag t) ih

lemma isSuff_parser_tag_legacy : IsSuff parser.parser_tag_legacy :=
  isSuff_alt2 (isSuff_altTags _) (isSuff_alt2 (isSuff_altTags _) (isSuff_altTags _))

lemma isSuff_parser_tag_standard : IsSuff parser.parser_tag_standard :=
  isSuff_alt2 (isSuff_altTags _) (isSuff_alt2 (isSuff_altTags _) (isSuff_altTags _))

lemma isSuff_parser_tag_standard_horodate : IsSuff parser.parser_tag_standard_horodate :=
  isSuff_alt2 (isSuff_altTags _) (isSuff_altTags _)

lemma isSuff_parser_value_helper (mode : TeleinfoMode) :
    IsSuff (parser.parser_value_helper mode) :=
  isSuff_completeTakeUntilChar _

lemma isSuff_parser_horodate_date : IsSuff parser.parser_horodate_date := by
  intro input rest v h
  unfold parser.parser_horodate_date at h
  cases hpt : ptake 12 input with
  | ok r1 s =>
    simp only [hpt] at h
    cases hdv : parser.parser_date_verifier s with
    | ok r2 ds =>
      simp only [hdv] at h
      split at h
      · injection h with h1 h2
        exact h1 ▸ isSuff_ptake 12 input r1 s hpt
      · simp at h
    | err => simp [hdv] at h
    | incomplete => simp [hdv] at h
    | panicked => simp [hdv] at h
  | err => simp [hpt] at h
  | incomplete => simp [hpt] at h
  | panicked => simp [hpt] at h

lemma isSuff_parser_horodate : IsSuff parser.parser_horodate := by
  intro input rest v h
  unfold parser.parser_horodate at h
  have hchain : IsSuff (pbind parser.parser_horodate_season fun s =>
      pbind parser.parser_horodate_date fun d => ppure (s, d)) := by
    refine isSuff_pbind ?_ ?_
    · exact isSuff_alt2 (isSuff_ptagNoCase _)
        (isSuff_alt2 (isSuff_ptagNoCase _) (isSuff_ptag _))
    · intro s
      exact isSuff_pbind isSuff_parser_horodate_date (fun d => isSuff_ppure _)
  cases hc : (pbind parser.parser_horodate_season fun s =>
      pbind parser.parser_horodate_date fun d => ppure (s, d)) input with
  | ok r1 sd =>
    obtain ⟨season, date⟩ := sd
    simp only [hc] at h
    cases season with
    | nil => simp at h
    | cons c cs =>
      cases hdt : parser.datetime_from_str date with
      | none => simp [hdt] at h
      | some dt =>
        simp only [hdt] at h
        injection h with h1 h2
        exact h1 ▸ hchain input r1 (c :: cs, date) hc
  | err => simp [hc] at h
  | incomplete => simp [hc] at h
  | panicked => simp [hc] at h

lemma isSuff_parser_dataset_legacy : IsSuff parser.parser_dataset_legacy := by
  unfold parser.parser_dataset_legacy
  refine isSuff_pbind (isSuff_pchar _) fun _ => ?_
  refine isSuff_pbind isSuff_parser_tag_legacy fun _ => ?_
  refine isSuff_pbind (isSuff_pchar _) fun _ => ?_
  refine isSuff_pbind (isSuff_parser_value_helper _) fun _ => ?_
  refine isSuff_pbind (isSuff_pchar _) fun _ => ?_
  refine isSuff_pbind isSuff_panychar fun _ => ?_
  exact isSuff_pbind (isSuff_pchar _) fun _ => isSuff_ppure _

lemma isSuff_parser_dataset_standard_nohd : IsSuff parser.parser_dataset_standard_nohd := by
  unfold parser.parser_dataset_standard_nohd
  refine isSuff_pbind (isSuff_pchar _) fun _ => ?_
  refine isSuff_pbind isSuff_parser_tag_standard fun _ => ?_
  refine isSuff_pbind (isSuff_pchar _) fun _ => ?_
  refine isSuff_pbind (isSuff_parser_value_helper _) fun _ => ?_
  refine isSuff_pbind (isSuff_pchar _) fun _ => ?_
  refine isSuff_pbind isSuff_panychar fun _ => ?_
  exact isSuff_pbind (isSuff_pchar _) fun _ => isSuff_ppure _

lemma isSuff_parser_dataset_standard_horodate :
    IsSuff parser.parser_dataset_standard_horodate := by
  unfold parser.parser_dataset_standard_horodate
  refine isSuff_pbind (isSuff_pchar _) fun _ => ?_
  refine isSuff_pbind isSuff_parser_tag_standard_horodate fun _ => ?_
  refine isSuff_pbind (isSuff_pchar _) fun _ => ?_
  refine isSuff_pbind isSuff_parser_horodate fun _ => ?_
  refine isSuff_pbind (isSuff_pchar _) fun _ => ?_
  refine isSuff_pbind (isSuff_parser_value_helper _) fun _ => ?_
  refine isSuff_pbind (isSuff_pchar _) fun _ => ?_
  refine isSuff_pbind isSuff_panychar fun _ => ?_
  exact isSuff_pbind (isSuff_pchar _) fun _ => isSuff_ppure _

lemma isSuff_parser_dataset_standard : IsSuff parser.parser_dataset_standard :=
  isSuff_alt2 isSuff_parser_dataset_standard_nohd isSuff_parser_dataset_standard_horodate

lemma isSuff_get_beginning : IsSuff parser.get_beginning :=
  isSuff_precognize (isSuff_pbind (isSuff_streamTakeUntilChar _) fun _ => isSuff_ptag _)

lemma isSuff_get_message : IsSuff parser.get_message := by
  unfold parser.get_message
  refine isSuff_pbind isSuff_get_beginning fun _ => ?_
  refine isSuff_pbind (isSuff_streamTakeUntilChar _) fun body => ?_
  exact isSuff_pbind (isSuff_ptag _) fun _ => isSuff_ppure _

/-- A parser that yields only success or a recoverable error. -/
def OkOrErr {α : Type} (p : P α) : Prop :=
  ∀ input, (∃ r v, p input = .ok r v) ∨ p input = .err

/-- A parser that never reports `Incomplete`. -/
def NoInc {α : Type} (p : P α) : Prop :=
  ∀ input, p input ≠ .incomplete

/-- A parser that consumes at least one character on success. -/
def StrictCons {α : Type} (p : P α) : Prop :=
  ∀ input rest v, p input = .ok rest v → rest.length < input.length

lemma okOrErr_ppure {α : Type} (a : α) : OkOrErr (ppure a) :=
  fun input => Or.inl ⟨input, a, rfl⟩

lemma okOrErr_pbind {α β : Type} {p : P α} {f : α → P β}
    (hp : OkOrErr p) (hf : ∀ a, OkOrErr (f a)) : OkOrErr (pbind p f) := by
  intro input
  rcases hp input with ⟨r, v, hok⟩ | herr
  · rcases hf v r with ⟨r2, v2, hok2⟩ | herr2
    · exact Or.inl ⟨r2, v2, by simp [pbind, hok, hok2]⟩
    · exact Or.inr (by simp [pbind, hok, herr2])
  · exact Or.inr (by simp [pbind, herr])

lemma okOrErr_alt2 {α : Type} {p q : P α} (hp : OkOrErr p) (hq : OkOrErr q) :
    OkOrErr (alt2 p q) := by
  intro input
  rcases hp input with ⟨r, v, hok⟩ | herr
  · exact Or.inl ⟨r, v, by simp [alt2, hok]⟩
  · rcases hq input with ⟨r, v, hok2⟩ | herr2
    · exact Or.inl ⟨r, v, by simp [alt2, herr, hok2]⟩
    · exact Or.inr (by simp [alt2, herr, herr2])

lemma okOrErr_ptag (t : List Char) : OkOrErr (ptag t) := by
  intro input
  unfold ptag
  split
  · exact Or.inl ⟨_, _, rfl⟩
  · exact Or.inr rfl

lemma okOrErr_ptagNoCase (t : List Char) : OkOrErr (ptagNoCase t) := by
  intro input
  unfold ptagNoCase
  split
  · exact Or.inl ⟨_, _, rfl⟩
  · exact Or.inr rfl

lemma okOrErr_pchar (c : Char) : OkOrErr (pchar c) := by
  intro input
  cases input with
  | nil => exact Or.inr rfl
  | cons x xs =>
    simp only [pchar]
    split
    · exact Or.inl ⟨_, _, rfl⟩
    · exact Or.inr rfl

lemma okOrErr_panychar : OkOrErr panychar := by
  intro input
  cases input with
  | nil => exact Or.inr rfl
  | cons x xs => exact Or.inl ⟨_, _, rfl⟩

lemma okOrErr_pdigit1 : OkOrErr pdigit1 := by
  intro input
  simp only [pdigit1]
  split
  · exact Or.inr rfl
  · exact Or.inl ⟨_, _, rfl⟩

lemma okOrErr_ptake (n : Nat) : OkOrErr (ptake n) := by
  intro input
  unfold ptake
  split
  · exact Or.inl ⟨_, _, rfl⟩
  · exact Or.inr rfl

lemma okOrErr_completeTakeUntilChar (c : Char) : OkOrErr (completeTakeUntilChar c) := by
  intro input
  unfold completeTakeUntilChar
  cases takeUntilChar c input with
  | none => exact Or.inr rfl
  | some pr => exact Or.inl ⟨_, _, rfl⟩

lemma okOrErr_altTags : ∀ ts : List (List Char), OkOrErr (parser.altTags ts) := by
  intro ts
  induction ts with
  | nil => exact fun input => Or.inr rfl
  | cons t ts ih => exact okOrErr_alt2 (okOrErr_ptag t) ih

lemma okOrErr_parser_tag_legacy : OkOrErr parser.parser_tag_legacy :=
  okOrErr_alt2 (okOrErr_altTags _) (okOrErr_alt2 (okOrErr_altTags _) (okOrErr_altTags _))

lemma okOrErr_parser_tag_standard : OkOrErr parser.parser_tag_standard :=
  okOrErr_alt2 (okOrErr_altTags _) (okOrErr_alt2 (okOrErr_altTags _) (okOrErr_altTags _))

lemma okOrErr_parser_tag_standard_horodate : OkOrErr parser.parser_tag_standard_horodate :=
  okOrErr_alt2 (okOrErr_altTags _) (okOrErr_altTags _)

lemma okOrErr_parser_dataset_legacy : OkOrErr parser.parser_dataset_legacy := by
  unfold parser.parser_dataset_legacy
  refine okOrErr_pbind (okOrErr_pchar _) fun _ => ?_
  refine okOrErr_pbind okOrErr_parser_tag_legacy fun _ => ?_
  refine okOrErr_pbind (okOrErr_pchar _) fun _ => ?_
  refine okOrErr_pbind (okOrErr_completeTakeUntilChar _) fun _ => ?_
  refine okOrErr_pbind (okOrErr_pchar _) fun _ => ?_
  refine okOrErr_pbind okOrErr_panychar fun _ => ?_
  exact okOrErr_pbind (okOrErr_pchar _) fun _ => okOrErr_ppure _

lemma noInc_of_okOrErr {α : Type} {p : P α} (hp : OkOrErr p) : NoInc p := by
  intro input h
  rcases hp input with ⟨r, v, hok⟩ | herr
  · rw [hok] at h; cases h
  · rw [herr] at h; cases h

lemma noInc_pbind {α β : Type} {p : P α} {f : α → P β}
    (hp : NoInc p) (hf : ∀ a, NoInc (f a)) : NoInc (pbind p f) := by
  intro input h
  unfold pbind at h
  cases hpi : p input with
  | ok r a => rw [hpi] at h; exact hf a r h
  | err => rw [hpi] at h; cases h
  | incomplete => exact hp input hpi
  | panicked => rw [hpi] at h; cases h

lemma noInc_alt2 {α : Type} {p q : P α} (hp : NoInc p) (hq : NoInc q) :
    NoInc (alt2 p q) := by
  intro input h
  unfold alt2 at h
  cases hpi : p input with
  | ok r a => rw [hpi] at h; cases h
  | err => rw [hpi] at h; exact hq input h
  | incomplete => exact hp input hpi
  | panicked => rw [hpi] at h; cases h

lemma noInc_parser_horodate_date : NoInc parser.parser_horodate_date := by
  intro input h
  unfold parser.parser_horodate_date at h
  cases hpt : ptake 12 input with
  | ok r1 s =>
    simp only [hpt] at h
    cases hdv : parser.parser_date_verifier s with
    | ok r2 ds =>
      simp only [hdv] at h
      split at h <;> cases h
    | err => simp [hdv] at h
    | incomplete => exact noInc_of_okOrErr okOrErr_pdigit1 s hdv
    | panicked => simp [hdv] at h
  | err => simp [hpt] at h
  | incomplete => exact noInc_of_okOrErr (okOrErr_ptake 12) input hpt
  | panicked => simp [hpt] at h

lemma noInc_parser_horodate : NoInc parser.parser_horodate := by
  intro input h
  unfold parser.parser_horodate at h
  have hchain : NoInc (pbind parser.parser_horodate_season fun s =>
      pbind parser.parser_horodate_date fun d => ppure (s, d)) := by
    refine noInc_pbind ?_ ?_
    · exact noInc_of_okOrErr (okOrErr_alt2 (okOrErr_ptagNoCase _)
        (okOrErr_alt2 (okOrErr_ptagNoCase _) (okOrErr_ptag _)))
    · intro s
      exact noInc_pbind noInc_parser_horodate_date
        fun d => noInc_of_okOrErr (okOrErr_ppure _)
  cases hc : (pbind parser.parser_horodate_season fun s =>
      pbind parser.parser_horodate_date fun d => ppure (s, d)) input with
  | ok r1 sd =>
    obtain ⟨season, date⟩ := sd
    simp only [hc] at h
    cases season with
    | nil => cases h
    | cons c cs =>
      cases hdt : parser.datetime_from_str date with
      | none => simp [hdt] at h
      | some dt => simp [hdt] at h
  | err => simp [hc] at h
  | incomplete => exact hchain input hc
  | panicked => simp [hc] at h

lemma noInc_parser_dataset_standard_nohd : NoInc parser.parser_dataset_standard_nohd := by
  unfold parser.parser_dataset_standard_nohd
  refine noInc_pbind (noInc_of_okOrErr (okOrErr_pchar _)) fun _ => ?_
  refine noInc_pbind (noInc_of_okOrErr okOrErr_parser_tag_standard) fun _ => ?_
  refine noInc_pbind (noInc_of_okOrErr (okOrErr_pchar _)) fun _ => ?_
  refine noInc_pbind (noInc_of_okOrErr (okOrErr_completeTakeUntilChar _)) fun _ => ?_
  refine noInc_pbind (noInc_of_okOrErr (okOrErr_pchar _)) fun _ => ?_
  refine noInc_pbind (noInc_of_okOrErr okOrErr_panychar) fun _ => ?_
  exact noInc_pbind (noInc_of_okOrErr (okOrErr_pchar _))
    fun _ => noInc_of_okOrErr (okOrErr_ppure _)

lemma noInc_parser_dataset_standard_horodate :
    NoInc parser.parser_dataset_standard_horodate := by
  unfold parser.parser_dataset_standard_horodate
  refine noInc_pbind (noInc_of_okOrErr (okOrErr_pchar _)) fun _ => ?_
  refine noInc_pbind (noInc_of_okOrErr okOrErr_parser_tag_standard_horodate) fun _ => ?_
  refine noInc_pbind (noInc_of_okOrErr (okOrErr_pchar _)) fun _ => ?_
  refine noInc_pbind noInc_parser_horodate fun _ => ?_
  refine noInc_pbind (noInc_of_okOrErr (okOrErr_pchar _)) fun _ => ?_
  refine noInc_pbind (noInc_of_okOrErr (okOrErr_completeTakeUntilChar _)) fun _ => ?_
  refine noInc_pbind (noInc_of_okOrErr (okOrErr_pchar _)) fun _ => ?_
  refine noInc_pbind (noInc_of_okOrErr okOrErr_panychar) fun _ => ?_
  exact noInc_pbind (noInc_of_okOrErr (okOrErr_pchar _))
    fun _ => noInc_of_okOrErr (okOrErr_ppure _)

lemma noInc_parser_dataset_standard : NoInc parser.parser_dataset_standard :=
  noInc_alt2 noInc_parser_dataset_standard_nohd noInc_parser_dataset_standard_horodate

lemma strictCons_pbind_pchar {α : Type} (c : Char) (k : Char → P α)
    (hk : ∀ a, IsSuff (k a)) : StrictCons (pbind (pchar c) k) := by
  intro input rest v h
  cases input with
  | nil => simp [pchar, pbind] at h
  | cons x xs =>
    by_cases hx : x = c
    · simp only [pbind, pchar, if_pos hx] at h
      have hsuff := (hk c) xs rest v h
      calc rest.length ≤ xs.length := hsuff.length_le
        _ < (x :: xs).length := by simp
    · simp [pbind, pchar, if_neg hx] at h

lemma strictCons_alt2 {α : Type} {p q : P α}
    (hp : StrictCons p) (hq : StrictCons q) : StrictCons (alt2 p q) := by
  intro input rest v h
  unfold alt2 at h
  cases hpi : p input with
  | ok r a => rw [hpi] at h; exact hp input rest v (hpi.trans h)
  | err => rw [hpi] at h; exact hq input rest v h
  | incomplete => rw [hpi] at h; simp at h
  | panicked => rw [hpi] at h; simp at h

lemma strictCons_parser_dataset_legacy : StrictCons parser.parser_dataset_legacy := by
  unfold parser.parser_dataset_legacy
  refine strictCons_pbind_pchar _ _ fun _ => ?_
  refine isSuff_pbind isSuff_parser_tag_legacy fun _ => ?_
  refine isSuff_pbind (isSuff_pchar _) fun _ => ?_
  refine isSuff_pbind (isSuff_parser_value_helper _) fun _ => ?_
  refine isSuff_pbind (isSuff_pchar _) fun _ => ?_
  refine isSuff_pbind isSuff_panychar fun _ => ?_
  exact isSuff_pbind (isSuff_pchar _) fun _ => isSuff_ppure _

lemma strictCons_parser_dataset_standard_nohd :
    StrictCons parser.parser_dataset_standard_nohd := by
  unfold parser.parser_dataset_standard_nohd
  refine strictCons_pbind_pchar _ _ fun _ => ?_
  refine isSuff_pbind isSuff_parser_tag_standard fun _ => ?_
  refine isSuff_pbind (isSuff_pchar _) fun _ => ?_
  refine isSuff_pbind (isSuff_parser_value_helper _) fun _ => ?_
  refine isSuff_pbind (isSuff_pchar _) fun _ => ?_
  refine isSuff_pbind isSuff_panychar fun _ => ?_
  exact isSuff_pbind (isSuff_pchar _) fun _ => isSuff_ppure _

lemma strictCons_parser_dataset_standard_horodate :
    StrictCons parser.parser_dataset_standard_horodate := by
  unfold parser.parser_dataset_standard_horodate
  refine strictCons_pbind_pchar _ _ fun _ => ?_
  refine isSuff_pbind isSuff_parser_tag_standard_horodate fun _ => ?_
  refine isSuff_pbind (isSuff_pchar _) fun _ => ?_
  refine isSuff_pbind isSuff_parser_horodate fun _ => ?_
  refine isSuff_pbind (isSuff_pchar _) fun _ => ?_
  refine isSuff_pbind (isSuff_parser_value_helper _) fun _ => ?_
  refine isSuff_pbind (isSuff_pchar _) fun _ => ?_
  refine isSuff_pbind isSuff_panychar fun _ => ?_
  exact isSuff_pbind (isSuff_pchar _) fun _ => isSuff_ppure _

lemma strictCons_parser_dataset_standard : StrictCons parser.parser_dataset_standard :=
  strictCons_alt2 strictCons_parser_dataset_standard_nohd
    strictCons_parser_dataset_standard_horodate

lemma pmany1Loop_ok_of_okOrErr {α : Type} {p : P α}
    (hs : StrictCons p) (ho : OkOrErr p) :
    ∀ fuel input acc, ∃ r v, pmany1Loop p fuel input acc = .ok r v := by
  intro fuel
  induction fuel with
  | zero => intro input acc; exact ⟨input, acc.reverse, rfl⟩
  | succ n ih =>
    intro input acc
    rcases ho input with ⟨r, v, hok⟩ | herr
    · have hne : r.length ≠ input.length := Nat.ne_of_lt (hs input r v hok)
      simp only [pmany1Loop, hok, if_neg hne]
      exact ih r (v :: acc)
    · exact ⟨input, acc.reverse, by simp [pmany1Loop, herr]⟩

lemma pmany1Loop_ne_err_of_noInc {α : Type} {p : P α}
    (hs : StrictCons p) (hn : NoInc p) :
    ∀ fuel input acc, pmany1Loop p fuel input acc ≠ .err ∧
      pmany1Loop p fuel input acc ≠ .incomplete := by
  intro fuel
  induction fuel with
  | zero => intro input acc; exact ⟨by simp [pmany1Loop], by simp [pmany1Loop]⟩
  | succ n ih =>
    intro input acc
    cases hpi : p input with
    | ok r v =>
      have hne : r.length ≠ input.length := Nat.ne_of_lt (hs input r v hpi)
      simp only [pmany1Loop, hpi, if_neg hne]
      exact ih r (v :: acc)
    | err => simp [pmany1Loop, hpi]
    | incomplete => exact absurd hpi (hn input)
    | panicked => simp [pmany1Loop, hpi]

lemma pmany1_isOk_eq {α : Type} {p : P α}
    (hs : StrictCons p) (ho : OkOrErr p) (input : List Char) :
    isOkP (pmany1 p input) = isOkP (p input) := by
  rcases ho input with ⟨r, v, hok⟩ | herr
  · have hne : r.length ≠ input.length := Nat.ne_of_lt (hs input r v hok)
    obtain ⟨r2, v2, h2⟩ := pmany1Loop_ok_of_okOrErr hs ho (r.length + 1) r [v]
    simp [pmany1, hok, if_neg hne, h2, isOkP]
  · simp [pmany1, herr, isOkP]

lemma pmany1_err_iff {α : Type} {p : P α}
    (hs : StrictCons p) (hn : NoInc p) (input : List Char) :
    pmany1 p input = .err ↔ p input = .err := by
  constructor
  · intro h
    cases hpi : p input with
    | ok r v =>
      exfalso
      have hne : r.length ≠ input.length := Nat.ne_of_lt (hs input r v hpi)
      simp only [pmany1, hpi, if_neg hne] at h
      exact (pmany1Loop_ne_err_of_noInc hs hn (r.length + 1) r [v]).1 h
    | err => rfl
    | incomplete => exact absurd hpi (hn input)
    | panicked => simp [pmany1, hpi] at h
  · intro h
    simp [pmany1, h]

lemma pmany1_legacy_ok (input : List Char) (r : List Char) (v : TeleinfoTuple)
    (hok : parser.parser_dataset_legacy input = .ok r v) :
    ∃ r2 v2, pmany1 parser.parser_dataset_legacy input = .ok r2 v2 := by
  have hne : r.length ≠ input.length :=
    Nat.ne_of_lt (strictCons_parser_dataset_legacy input r v hok)
  obtain ⟨r2, v2, h2⟩ := pmany1Loop_ok_of_okOrErr strictCons_parser_dataset_legacy
    okOrErr_parser_dataset_legacy (r.length + 1) r [v]
  exact ⟨r2, v2, by simp [pmany1, hok, if_neg hne, h2]⟩

lemma parser_message_legacy_isOk (input : List Char) :
    isOkP (parser.parser_message_legacy input) =
      isOkP (parser.parser_dataset_legacy input) := by
  rw [← pmany1_isOk_eq strictCons_parser_dataset_legacy okOrErr_parser_dataset_legacy]
  unfold parser.parser_message_legacy
  cases pmany1 parser.parser_dataset_legacy input <;> rfl

lemma parser_message_legacy_err (input : List Char) :
    parser.parser_message_legacy input = .err ↔
      parser.parser_dataset_legacy input = .err := by
  rw [← pmany1_err_iff strictCons_parser_dataset_legacy
    (noInc_of_okOrErr okOrErr_parser_dataset_legacy)]
  unfold parser.parser_message_legacy
  cases pmany1 parser.parser_dataset_legacy input <;> simp

lemma parser_message_standard_err (input : List Char) :
    parser.parser_message_standard input = .err ↔
      parser.parser_dataset_standard input = .err := by
  rw [← pmany1_err_iff strictCons_parser_dataset_standard noInc_parser_dataset_standard]
  unfold parser.parser_message_standard
  cases pmany1 parser.parser_dataset_standard input <;> simp

lemma hashmap_get_insert (k : List Char) (v : TeleinfoValue)
    (m : List (List Char × TeleinfoValue)) (key : List Char) :
    hashmap_get (hashmap_insert k v m) key =
      if k = key then some v else hashmap_get m key := by
  induction m with
  | nil => simp [hashmap_insert, hashmap_get]
  | cons kv rest ih =>
    obtain ⟨k2, v2⟩ := kv
    simp only [hashmap_insert]
    by_cases hk : k2 = k
    · rw [if_pos hk]
      subst hk
      simp only [hashmap_get]
      by_cases hkey : k2 = key
      · simp [hkey]
      · simp [hkey]
    · rw [if_neg hk]
      simp only [hashmap_get, ih]
      by_cases hkey : k2 = key
      · have hknk : ¬ k = key := fun h => hk (hkey.trans h.symm)
        simp [hkey, hknk]
      · simp [hkey]

lemma hashmap_get_foldl (lines : List TeleinfoTuple)
    (m : List (List Char × TeleinfoValue)) (key : List Char) :
    hashmap_get (lines.foldl
        (fun values line => hashmap_insert line.1 ⟨line.2.1, line.2.2.2⟩ values) m) key =
      match lines.reverse.find? (fun t => t.1 == key) with
      | some t => some ⟨t.2.1, t.2.2.2⟩
      | none => hashmap_get m key := by
  induction lines generalizing m with
  | nil => simp
  | cons t rest ih =>
    simp only [List.foldl_cons, List.reverse_cons, List.find?_append]
    rw [ih]
    cases hfr : rest.reverse.find? (fun t => t.1 == key) with
    | some u => simp [hfr, Option.or_some]
    | none =>
      simp only [hfr, Option.none_or]
      rw [hashmap_get_insert]
      by_cases hk : t.1 = key
      · simp [List.find?, hk]
      · simp [List.find?, beq_eq_false_iff_ne.mpr hk, hk]

lemma hashmap_get_parsed (lines : List TeleinfoTuple) (key : List Char) :
    hashmap_get (parsed_vector_to_values lines) key =
      (lines.reverse.find? (fun t => t.1 == key)).map
        (fun t => (⟨t.2.1, t.2.2.2⟩ : TeleinfoValue)) := by
  rw [parsed_vector_to_values, hashmap_get_foldl]
  cases lines.reverse.find? (fun t => t.1 == key) with
  | some u => rfl
  | none => rfl

lemma ptag_single_cons (c : Char) (l : List Char) : ptag [c] (c :: l) = .ok l [c] := by
  simp [ptag, List.isPrefixOf]

/-! Claim statements. -/

/-- Checksum input as claim C1 words it: tag, separator, optionally the raw
horodate and a separator, the value, and a trailing separator exactly when
the mode is Standard. -/
def checksum_content_claimed (mode : TeleinfoMode) (tg value : List Char)
    (hd : Option TeleinfoDate) : List Char :=
  let sep := [parser.separator mode]
  let trailing : List Char :=
    match mode with
    | .Standard => sep
    | .Legacy => []
  match hd with
  | none => tg ++ sep ++ value ++ trailing
  | some d => tg ++ sep ++ d.raw_value ++ sep ++ value ++ trailing

/-- Checksum input the code actually compares against: without a horodate the
trailing separator appears exactly when the mode is Standard, but with a
horodate the code always appends the mode's separator, in Legacy mode too. -/
def checksum_content_code (mode : TeleinfoMode) (tg value : List Char)
    (hd : Option TeleinfoDate) : List Char :=
  let sep := [parser.separator mode]
  let trailing : List Char :=
    match mode with
    | .Standard => sep
    | .Legacy => []
  match hd with
  | none => tg ++ sep ++ value ++ trailing
  | some d => tg ++ sep ++ d.raw_value ++ sep ++ value ++ sep

/-- C1 (counterexample): for a Legacy-mode tuple carrying a horodate the code
includes a trailing separator in the checksum input, so validation succeeds
on the checksum of `tag ++ " " ++ raw ++ " " ++ value ++ " "` and the claim's
trailing-separator-iff-Standard formula disagrees with `validate`. -/
theorem C1_counterexample :
    ¬ (parser.validate TeleinfoMode.Legacy
        (("BBRHCJB").toList, ("42").toList, 'B',
          some ⟨'H', ⟨2008, 12, 25, 22, 35, 18⟩, ("H081225223518").toList⟩) = true ↔
      'B' = parser.calculate_checksum
        (checksum_content_claimed TeleinfoMode.Legacy (("BBRHCJB").toList)
          (("42").toList)
          (some ⟨'H', ⟨2008, 12, 25, 22, 35, 18⟩, ("H081225223518").toList⟩))) := by
  decide

/-- C1 (amended): checksum validation succeeds if and only if the transmitted
checksum character equals the character obtained by summing the code points of
the concatenation tag + separator + [raw horodate + separator +] value,
masking with 0x3F and adding 0x20, where a trailing separator is appended
exactly when the mode is Standard in the horodate-free case, and is always
appended (using the mode's separator) when a horodate is present. -/
theorem C1_checksum_rule (mode : TeleinfoMode) (tg value : List Char) (cs : Char)
    (hd : Option TeleinfoDate) :
    parser.validate mode (tg, value, cs, hd) = true ↔
      cs = parser.calculate_checksum (checksum_content_code mode tg value hd) := by
  cases mode <;> cases hd <;>
    simp [parser.validate, checksum_content_code, decide_eq_true_eq, eq_comm]

/-- C5 (code behaviour at the failing inputs): the horodate parser panics
instead of failing on a 13-character candidate whose character after the
season marker is not an ASCII digit, and on twelve digits that are not a
valid calendar date-time (here a 30th of February). -/
theorem C5_panics :
    parser.parser_horodate (("HX00000000000").toList) = .panicked
    ∧ parser.parser_horodate (("H200230123456").toList) = .panicked := by
  exact ⟨by decide, by decide⟩

/-- C10: the horodate parser is not total on its accepted-shape domain: a
13-character input with a valid season marker panics when the character after
the season is not an ASCII digit, and also when the 12 characters are all
digits but form no valid calendar date-time (here a 31st of February). -/
theorem C10_horodate_panics :
    ((("EZ11111111111").toList).length = 13
      ∧ parser.parser_horodate (("EZ11111111111").toList) = .panicked)
    ∧ ((("E200231123456").toList).length = 13
      ∧ parser.parser_horodate (("E200231123456").toList) = .panicked) := by
  exact ⟨⟨by decide, by decide⟩, ⟨by decide, by decide⟩⟩

/-- C9: the record's mapping sends every tag occurring in the parsed line
sequence to the value and horodate of its last occurrence in line order
(last write wins), and every tag that appears is present in the mapping. -/
theorem C9_last_write_wins (lines : List TeleinfoTuple) (key : List Char) :
    hashmap_get (parsed_vector_to_values lines) key =
      (lines.reverse.find? (fun t => t.1 == key)).map
        (fun t => (⟨t.2.1, t.2.2.2⟩ : TeleinfoValue))
    ∧ ((lines.map fun t => t.1).all
        fun k => (hashmap_get (parsed_vector_to_values lines) k).isSome) = true := by
  refine ⟨hashmap_get_parsed lines key, ?_⟩
  rw [List.all_eq_true]
  intro k hk
  rw [List.mem_map] at hk
  obtain ⟨t, ht, rfl⟩ := hk
  rw [hashmap_get_parsed, Option.isSome_map']
  rw [List.find?_isSome]
  exact ⟨t, List.mem_reverse.mpr ht, by simp⟩

/-- C2: whenever the frame body parses into lines, a message is built (a
checksum mismatch never prevents construction), its `valid` flag is true if
and only if the grammar parse consumed the entire body and every parsed field
passes checksum validation for the selected mode, every parsed field is
present in the record's mapping, and the record carries the selected mode. -/
theorem C2_valid_flag (body r : List Char) (lines : List TeleinfoTuple)
    (mode : TeleinfoMode)
    (h : parser.parser_message body = .ok r (lines, mode)) :
    ∃ msg, build_message body = some msg
      ∧ (msg.valid = true ↔ (r = [] ∧ ∀ t ∈ lines, parser.validate mode t = true))
      ∧ (∀ t ∈ lines, (hashmap_get msg.values t.1).isSome = true)
      ∧ msg.mode = mode := by
  refine ⟨⟨parsed_vector_to_values lines, mode,
    r.isEmpty && parser.validate_message mode lines⟩, ?_, ?_, ?_, rfl⟩
  · simp [build_message, h]
  · simp only [Bool.and_eq_true, List.isEmpty_iff, parser.validate_message,
      List.all_eq_true, List.mem_map]
    constructor
    · rintro ⟨hr, hall⟩
      exact ⟨hr, fun t ht => hall (parser.validate mode t) ⟨t, ht, rfl⟩⟩
    · rintro ⟨hr, hall⟩
      refine ⟨hr, ?_⟩
      rintro x ⟨t, ht, rfl⟩
      exact hall t ht
  · intro t ht
    rw [hashmap_get_parsed, Option.isSome_map']
    rw [List.find?_isSome]
    exact ⟨t, List.mem_reverse.mpr ht, by simp⟩

/-- C2 (witness): a single Legacy line with a corrupted checksum character
still builds a message; its fields are present and `valid` is false exactly
because the checksum fails. -/
theorem C2_valid_flag_witness :
    ∃ msg, build_message (("\x0aBBRHCJB 001478389 F\x0d").toList) = some msg
      ∧ (msg.valid = true ↔ (([] : List Char) = []
          ∧ ∀ t ∈ [((("BBRHCJB").toList), (("001478389").toList), 'F',
              (none : Option TeleinfoDate))],
            parser.validate TeleinfoMode.Legacy t = true))
      ∧ (∀ t ∈ [((("BBRHCJB").toList), (("001478389").toList), 'F',
            (none : Option TeleinfoDate))],
          (hashmap_get msg.values t.1).isSome = true)
      ∧ msg.mode = TeleinfoMode.Legacy :=
  C2_valid_flag (("\x0aBBRHCJB 001478389 F\x0d").toList) []
    [((("BBRHCJB").toList), (("001478389").toList), 'F', none)]
    TeleinfoMode.Legacy (by decide)

/-- C3 (counterexample): mode classification does not require the whole body
to be consumed: a body consisting of one well-formed Legacy line followed by
the unparsed byte `X` is classified Legacy with a non-empty remainder. -/
theorem C3_counterexample :
    parser.parser_message (("\x0aADCO 1 M\x0dX").toList) =
      .ok (("X").toList)
        ([((("ADCO").toList), (("1").toList), 'M', none)], TeleinfoMode.Legacy)
    ∧ (("X").toList) ≠ ([] : List Char) := by
  exact ⟨by decide, by decide⟩

/-- C3 (amended): mode classification is by ordered alternation on the
leading line only: the body is classified Legacy exactly when at least one
leading Legacy line tokenizes (the remainder need not be empty); otherwise
the Standard grammar is attempted, and the result is a structural parse
error exactly when neither grammar tokenizes a first line. -/
theorem C3_mode_selection (body : List Char) :
    parser.parser_message body =
      (if isOkP (parser.parser_dataset_legacy body) then parser.parser_message_legacy body
       else parser.parser_message_standard body)
    ∧ isOkP (parser.parser_message_legacy body) = isOkP (parser.parser_dataset_legacy body)
    ∧ (parser.parser_message body = .err ↔
        (parser.parser_dataset_legacy body = .err
          ∧ parser.parser_dataset_standard body = .err)) := by
  refine ⟨?_, parser_message_legacy_isOk body, ?_, ?_⟩
  · rcases okOrErr_parser_dataset_legacy body with ⟨r, v, hok⟩ | herr
    · rw [if_pos (by simp [isOkP, hok])]
      obtain ⟨r2, v2, h2⟩ := pmany1_legacy_ok body r v hok
      have hleg : parser.parser_message_legacy body = .ok r2 (v2, .Legacy) := by
        unfold parser.parser_message_legacy
        rw [h2]
      unfold parser.parser_message alt2
      rw [hleg]
    · rw [if_neg (by simp [isOkP, herr])]
      unfold parser.parser_message alt2
      rw [(parser_message_legacy_err body).mpr herr]
  · intro h
    have hleg : parser.parser_message_legacy body = .err := by
      unfold parser.parser_message alt2 at h
      cases hl : parser.parser_message_legacy body with
      | err => rfl
      | ok r v => rw [hl] at h; simp at h
      | incomplete => rw [hl] at h; simp at h
      | panicked => rw [hl] at h; simp at h
    have hstd : parser.parser_message_standard body = .err := by
      unfold parser.parser_message alt2 at h
      rw [hleg] at h
      exact h
    exact ⟨(parser_message_legacy_err body).mp hleg,
      (parser_message_standard_err body).mp hstd⟩
  · rintro ⟨h1, h2⟩
    unfold parser.parser_message alt2
    rw [(parser_message_legacy_err body).mpr h1]
    exact (parser_message_standard_err body).mpr h2

/-- C4: frame extraction drops everything up to and including the first
0x02, returns everything up to the first following 0x03 as the frame body
with the remainder starting right after that 0x03, and reports Incomplete
(not an error) when the trailing 0x03 is missing or when no 0x02 occurs. -/
theorem C4_frame_extraction (pre body post : List Char)
    (h1 : STX ∉ pre) (h2 : ETX ∉ body) :
    parser.get_message (pre ++ STX :: (body ++ ETX :: post)) = .ok post body
    ∧ parser.get_message (pre ++ STX :: body) = .incomplete
    ∧ parser.get_message pre = .incomplete := by
  have h1a : takeUntilChar STX (pre ++ STX :: (body ++ ETX :: post)) =
      some (pre, STX :: (body ++ ETX :: post)) := takeUntilChar_append _ h1
  have h1b : takeUntilChar STX (pre ++ STX :: body) =
      some (pre, STX :: body) := takeUntilChar_append _ h1
  have h1n : takeUntilChar STX pre = none := takeUntilChar_eq_none h1
  have h2a : takeUntilChar ETX (body ++ ETX :: post) =
      some (body, ETX :: post) := takeUntilChar_append _ h2
  have h2n : takeUntilChar ETX body = none := takeUntilChar_eq_none h2
  refine ⟨?_, ?_, ?_⟩
  · simp only [parser.get_message, parser.get_beginning, pbind, precognize,
      streamTakeUntilChar, h1a, ptag_single_cons, h2a, ppure]
  · simp only [parser.get_message, parser.get_beginning, pbind, precognize,
      streamTakeUntilChar, h1b, ptag_single_cons, h2n]
  · simp only [parser.get_message, parser.get_beginning, pbind, precognize,
      streamTakeUntilChar, h1n]

/-- C4 (witness): extraction of the frame `ab<STX>XY<ETX>Z` yields body `XY`
and remainder `Z`, and both truncated variants are Incomplete. -/
theorem C4_frame_extraction_witness :
    parser.get_message ((("ab").toList) ++ STX :: ((("XY").toList) ++ ETX :: (("Z").toList)))
        = .ok (("Z").toList) (("XY").toList)
    ∧ parser.get_message ((("ab").toList) ++ STX :: (("XY").toList)) = .incomplete
    ∧ parser.get_message (("ab").toList) = .incomplete :=
  C4_frame_extraction (("ab").toList) (("XY").toList) (("Z").toList)
    (by decide) (by decide)

/-- C6 (code behaviour at the failing input): for the complete frame
`<STX>X<ETX>` whose body parses under neither grammar, the decode entry
point panics (the source unwraps the failed parse inside `build_message`;
`handle_nom_error` is unreachable for this input), while a non-timeout
transport failure is indeed returned as an I/O error. -/
theorem C6_structural_failure :
    get_message [ReadEv.chunk []] [STX, 'X', ETX] = DecodeOutcome.panicked
    ∧ get_message [ReadEv.fatal 7] [] = DecodeOutcome.ioError 7 := by
  exact ⟨by decide, by decide⟩

/-- C7: delivering a frame split into a leftover and one transport chunk
produces exactly the outcome of delivering the concatenation in one shot
(up to the final zero-byte read), and on success the returned leftover is
the exact byte suffix of the accumulated input after the consumed frame. -/
theorem C7_incremental (c1 c2 r : List Char) (msg : TeleinfoMessage)
    (h : get_message [ReadEv.chunk c2] c1 = .ok r msg) :
    get_message [ReadEv.chunk []] (c1 ++ c2) = .ok r msg
    ∧ ∃ consumed, c1 ++ c2 = consumed ++ r := by
  have hds : decode_step (c1 ++ c2) = some (.ok r msg) := by
    simp only [get_message, get_message_loop] at h
    cases hd : decode_step (c1 ++ c2) with
    | none => rw [hd] at h; simp [get_message_loop] at h
    | some out => rw [hd] at h; exact congrArg some h
  constructor
  · simp only [get_message, get_message_loop]
    rw [List.append_nil, hds]
  · unfold decode_step at hds
    cases hg : parser.get_message (c1 ++ c2) with
    | ok r2 body =>
      obtain ⟨consumed, hc⟩ := isSuff_get_message (c1 ++ c2) r2 body hg
      simp only [hg] at hds
      cases hb : build_message body with
      | some m =>
        simp only [hb] at hds
        have hok := Option.some.inj hds
        injection hok with hr hm
        exact ⟨consumed, by rw [← hc, hr]⟩
      | none => simp [hb] at hds
    | err => simp [hg, handle_nom_error] at hds
    | incomplete => simp [hg] at hds
    | panicked => simp [hg] at hds

/-- C7 (witness): the Legacy frame `<STX>\nBBRHCJB 001478389 E\r<ETX>ZZ`
split after eleven bytes decodes across leftover plus one chunk to the same
record as the single-shot parse, with leftover `ZZ`. -/
theorem C7_incremental_witness :
    get_message [ReadEv.chunk []]
        ((STX :: ("\x0aBBRHCJB 00").toList) ++
          ((("1478389 E\x0d").toList) ++ ETX :: ("ZZ").toList)) =
      .ok (("ZZ").toList)
        ⟨[((("BBRHCJB").toList),
            ⟨(("001478389").toList), none⟩)], TeleinfoMode.Legacy, true⟩
    ∧ ∃ consumed,
        (STX :: ("\x0aBBRHCJB 00").toList) ++
          ((("1478389 E\x0d").toList) ++ ETX :: ("ZZ").toList) =
          consumed ++ ("ZZ").toList :=
  C7_incremental (STX :: ("\x0aBBRHCJB 00").toList)
    ((("1478389 E\x0d").toList) ++ ETX :: ("ZZ").toList)
    (("ZZ").toList)
    ⟨[((("BBRHCJB").toList), ⟨(("001478389").toList), none⟩)],
      TeleinfoMode.Legacy, true⟩
    (by decide)

/-- C8: in the decode read loop a timeout-class read error behaves exactly
like a zero-byte read (the loop keeps accumulating), and a non-timeout read
error is propagated to the caller immediately, aborting the call. -/
theorem C8_timeout_is_zero_read (acc : List Char) (rest : List ReadEv) (e : Nat) :
    get_message (ReadEv.timeout :: rest) acc = get_message (ReadEv.chunk [] :: rest) acc
    ∧ get_message (ReadEv.fatal e :: rest) acc = .ioError e := by
  constructor
  · simp only [get_message, get_message_loop]
    rw [List.append_nil]
  · rfl
